import Mathlib

/-!
Verification development for the `squelch` push-to-talk radio simulator.

The Rust sources are shallowly embedded:
* the wire codec (`src/lib.rs`, the derived bincode `Encode`/`Decode` for
  `Packet` under the `standard()` configuration: little-endian, variable-size
  integer encoding) works on byte lists, with each `f32` sample represented by
  its 32-bit pattern (a `Nat` below 2^32), since bincode moves the raw 4-byte
  little-endian image of every sample;
* the jitter buffer (`src/jitter.rs`) is explicit state passing over lists;
* the effects engine (`src/fx.rs`) runs over exact rationals; the simplex
  noise generator from the external `noise` crate is carried as an opaque
  function field, and the biquad coefficients produced by the external
  `biquad` crate are plain state fields, because the claims about the engine
  concern its control structure, not particular noise values;
* the server mixing tick (`src/server.rs`) and the idle half of the client
  session loop (`src/bin/client.rs`) are step functions on explicit states.
-/

set_option maxRecDepth 8192

namespace Squelch

/-- `TX_BUFFER_SIZE` from src/lib.rs: samples per block. -/
def TX_BUFFER_SIZE : Nat := 256

/-- `MAX_PACKET_SIZE` from src/lib.rs: `4 * TX_BUFFER_SIZE + 8`. -/
def MAX_PACKET_SIZE : Nat := 4 * TX_BUFFER_SIZE + 8

/-- `Packet` from src/lib.rs. `Audio` carries a `TxBuffer = [f32; 256]`;
each sample is embedded as its 32-bit pattern. The fixed length and the
32-bit range are recorded by `Packet.valid` below, mirroring the Rust type. -/
inductive Packet where
  | Ping : Packet
  | Audio (samples : List Nat) : Packet
deriving DecidableEq

/-- The typing invariant that the Rust `Packet` enforces by construction:
an `Audio` payload is exactly `TX_BUFFER_SIZE` samples, each a 32-bit word. -/
def Packet.valid : Packet → Bool
  | .Ping => true
  | .Audio l => l.length == TX_BUFFER_SIZE && l.all (fun w => w < 4294967296)

/-- Little-endian bytes of one `f32` sample (its 32-bit pattern), as written
by bincode's `standard()` (little-endian) fixed 4-byte `f32` encoding. -/
def encodeSample (w : Nat) : List Nat :=
  [w % 256, w / 256 % 256, w / 65536 % 256, w / 16777216 % 256]

/-- Encoding of a `[f32; N]` array body: bincode encodes fixed-size arrays
as the concatenation of the element encodings, with no length prefix. -/
def encodeSamples : List Nat → List Nat
  | [] => []
  | w :: ws => encodeSample w ++ encodeSamples ws

/-- `bincode::encode_to_vec(p, standard())` for `Packet`: the derived
encoder writes the variant index as a u32 varint (a single byte here, the
indices being 0 and 1), then the payload fields. -/
def encode : Packet → List Nat
  | .Ping => [0]
  | .Audio l => 1 :: encodeSamples l

/-- Value of two little-endian bytes. -/
def leU16 (b0 b1 : Nat) : Nat := b0 + 256 * b1

/-- Value of four little-endian bytes. -/
def leU32 (b0 b1 b2 b3 : Nat) : Nat :=
  b0 + 256 * b1 + 65536 * b2 + 16777216 * b3

/-- bincode `standard()` varint decoding of a `u32` (used for the variant
index): a first byte up to 250 is the value itself; 251 announces a u16,
252 a u32; the markers for wider integers (253, 254) and the reserved byte
255 are `InvalidIntegerType`/`UnexpectedVariant`-style decode errors, as is
running out of bytes. `none` models `Err(DecodeError)`. -/
def decodeVarintU32 : List Nat → Option (Nat × List Nat)
  | [] => none
  | b :: rest =>
    if b < 251 then some (b, rest)
    else if b = 251 then
      match rest with
      | b0 :: b1 :: r => some (leU16 b0 b1, r)
      | _ => none
    else if b = 252 then
      match rest with
      | b0 :: b1 :: b2 :: b3 :: r => some (leU32 b0 b1 b2 b3, r)
      | _ => none
    else none

/-- Decoding of `n` consecutive `f32` samples (4 bytes each); `none` models
`DecodeError::UnexpectedEnd` when the input runs out. -/
def decodeSamples : Nat → List Nat → Option (List Nat × List Nat)
  | 0, rest => some ([], rest)
  | n + 1, b0 :: b1 :: b2 :: b3 :: rest =>
    match decodeSamples n rest with
    | some (ss, r) => some (leU32 b0 b1 b2 b3 :: ss, r)
    | none => none
  | _ + 1, _ => none

/-- `bincode::decode_from_slice::<Packet, _>(bs, standard())`: decode the
variant index, then the payload; return the value together with the number
of bytes read. Variant indices other than 0 and 1 are
`DecodeError::UnexpectedVariant`. `none` models `Err(DecodeError)`; the
embedding is a total function, which is how the panic-freedom of the Rust
decoder surfaces here. -/
def decode (bs : List Nat) : Option (Packet × Nat) :=
  match decodeVarintU32 bs with
  | none => none
  | some (d, rest) =>
    match d with
    | 0 => some (.Ping, bs.length - rest.length)
    | 1 =>
      match decodeSamples TX_BUFFER_SIZE rest with
      | some (l, rest2) => some (.Audio l, bs.length - rest2.length)
      | none => none
    | _ => none

theorem leU32_encodeBytes (w : Nat) (h : w < 4294967296) :
    leU32 (w % 256) (w / 256 % 256) (w / 65536 % 256) (w / 16777216 % 256) = w := by
  unfold leU32
  omega

theorem encodeSamples_length (l : List Nat) :
    (encodeSamples l).length = 4 * l.length := by
  induction l with
  | nil => rfl
  | cons w ws ih => simp [encodeSamples, encodeSample, ih]; omega

theorem decodeSamples_encodeSamples (l rest : List Nat)
    (h : ∀ w ∈ l, w < 4294967296) :
    decodeSamples l.length (encodeSamples l ++ rest) = some (l, rest) := by
  induction l with
  | nil => rfl
  | cons w ws ih =>
    have hw : w < 4294967296 := h w (List.mem_cons_self w ws)
    have hws : ∀ u ∈ ws, u < 4294967296 := fun u hu => h u (List.mem_cons_of_mem w hu)
    simp only [encodeSamples, encodeSample, List.length_cons, List.cons_append,
      List.nil_append, List.append_assoc]
    simp only [decodeSamples]
    rw [ih hws, leU32_encodeBytes w hw]

/-- **C1.** For every valid `Packet` value `p`, decoding the bytes produced
by encoding `p` succeeds and yields `p` again (together with the full
consumed length): `decode(encode(p)) == p`. -/
theorem decode_encode (p : Packet) (h : p.valid = true) :
    decode (encode p) = some (p, (encode p).length) := by
  cases p with
  | Ping => rfl
  | Audio l =>
    simp only [Packet.valid, Bool.and_eq_true, beq_iff_eq, List.all_eq_true,
      decide_eq_true_eq] at h
    obtain ⟨hlen, hbound⟩ := h
    have hdec : decodeSamples TX_BUFFER_SIZE (encodeSamples l ++ []) = some (l, []) := by
      rw [← hlen]
      exact decodeSamples_encodeSamples l [] hbound
    rw [List.append_nil] at hdec
    simp only [encode, decode, decodeVarintU32]
    rw [if_pos (by norm_num)]
    simp only [hdec, List.length_cons, List.length_nil, Nat.sub_zero]

/-- Witness for C1 at the all-zero audio block. -/
theorem decode_encode_witness :
    Packet.valid (Packet.Audio (List.replicate 256 0)) = true ∧
      decode (encode (Packet.Audio (List.replicate 256 0))) =
        some (Packet.Audio (List.replicate 256 0),
          (encode (Packet.Audio (List.replicate 256 0))).length) :=
  ⟨by decide, decode_encode (Packet.Audio (List.replicate 256 0)) (by decide)⟩

theorem decodeSamples_short (n : Nat) (bs : List Nat)
    (h : bs.length < 4 * n) : decodeSamples n bs = none := by
  induction n generalizing bs with
  | zero => omega
  | succ m ih =>
    match bs with
    | [] => rfl
    | [a] => rfl
    | [a, b] => rfl
    | [a, b, c] => rfl
    | a :: b :: c :: d :: rest =>
      have : rest.length < 4 * m := by
        simp only [List.length_cons] at h
        omega
      simp only [decodeSamples, ih rest this]

/-- **C2.** Decoding any byte sequence shorter than the minimum valid
encoding (the 1-byte `Ping` image) yields a decode error, and decoding any
strict truncation of a valid packet encoding yields a decode error. The
embedded `decode` is a total function, which is the shallow form of "never
panics". -/
theorem decode_short_or_truncated (bs : List Nat) (p : Packet) (k : Nat)
    (hp : p.valid = true) :
    (bs.length < (encode Packet.Ping).length → decode bs = none) ∧
    (k < (encode p).length → decode ((encode p).take k) = none) := by
  constructor
  · intro hlen
    simp only [encode, List.length_cons, List.length_nil] at hlen
    interval_cases h : bs.length
    rw [List.length_eq_zero] at h
    subst h
    rfl
  · intro hk
    cases p with
    | Ping =>
      simp only [encode, List.length_cons, List.length_nil] at hk
      have : k = 0 := by omega
      subst this
      rfl
    | Audio l =>
      simp only [Packet.valid, Bool.and_eq_true, beq_iff_eq, List.all_eq_true,
        decide_eq_true_eq] at hp
      obtain ⟨hlen, -⟩ := hp
      simp only [encode, List.length_cons, encodeSamples_length, hlen] at hk
      match k with
      | 0 => rfl
      | j + 1 =>
        simp only [encode, List.take_succ_cons]
        have htail : ((encodeSamples l).take j).length < 4 * TX_BUFFER_SIZE := by
          simp only [List.length_take, encodeSamples_length, hlen]
          simp only [TX_BUFFER_SIZE] at hk ⊢
          omega
        simp only [decode, decodeVarintU32]
        rw [if_pos (by norm_num)]
        simp only [decodeSamples_short TX_BUFFER_SIZE _ htail]

/-- Witness for C2: the empty buffer and a 1024-byte truncation of an
encoded audio packet both fail to decode. -/
theorem decode_short_or_truncated_witness :
    decode [] = none ∧
      decode ((encode (Packet.Audio (List.replicate 256 0))).take 1024) = none :=
  ⟨(decode_short_or_truncated [] (Packet.Audio (List.replicate 256 0)) 1024
      (by decide)).1 (by decide),
    (decode_short_or_truncated [] (Packet.Audio (List.replicate 256 0)) 1024
      (by decide)).2 (by decide)⟩

/-- **C9.** Every valid packet encodes to at most `MAX_PACKET_SIZE` bytes
(`4 * TX_BUFFER_SIZE + 8 = 1032`), so the fixed receive buffers in
src/server.rs and src/bin/client.rs always hold a full encoded packet. -/
theorem encode_length_le (p : Packet) (hp : p.valid = true) :
    (encode p).length ≤ MAX_PACKET_SIZE := by
  cases p with
  | Ping => decide
  | Audio l =>
    simp only [Packet.valid, Bool.and_eq_true, beq_iff_eq, List.all_eq_true,
      decide_eq_true_eq] at hp
    obtain ⟨hlen, -⟩ := hp
    simp only [encode, List.length_cons, encodeSamples_length, hlen,
      MAX_PACKET_SIZE]
    omega

/-- Witness for C9 at the all-zero audio block. -/
theorem encode_length_le_witness :
    (encode (Packet.Audio (List.replicate 256 0))).length ≤ MAX_PACKET_SIZE :=
  encode_length_le (Packet.Audio (List.replicate 256 0)) (by decide)

/-- One `recv_from(&mut buf)` into the fixed receive buffer, as used by both
src/server.rs (lines 81-97) and src/bin/client.rs (lines 196-200): the
datagram overwrites the first `dgram.length` bytes and every later byte
keeps its previous value; the code then decodes the ENTIRE buffer, ignoring
the received byte count returned by `recv_from`. -/
def recvInto (buf dgram : List Nat) : List Nat :=
  dgram ++ buf.drop dgram.length

/-- **C10.** Receiving a full audio packet (samples with pattern 7) and then
a 5-byte truncated audio packet (tag plus one sample with pattern 9) leaves
the buffer decoding successfully to an audio packet whose first sample comes
from the new datagram and whose remaining 255 samples are stale bytes of the
previous datagram — no decode error is reported. -/
theorem stale_bytes_decode :
    decode (recvInto
        (recvInto (List.replicate MAX_PACKET_SIZE 0)
          (encode (Packet.Audio (List.replicate 256 7))))
        ((encode (Packet.Audio (List.replicate 256 9))).take 5)) =
      some (Packet.Audio (9 :: List.replicate 255 7), 1025) := by
  have h256 : ∀ a : Nat, List.replicate 256 a = a :: List.replicate 255 a := by
    intro a
    rw [show (256 : Nat) = 255 + 1 from rfl, List.replicate_succ]
  have e7 : encodeSample 7 = [7, 0, 0, 0] := rfl
  have e9 : encodeSample 9 = [9, 0, 0, 0] := rfl
  have hd1 : encode (Packet.Audio (List.replicate 256 7)) =
      [1, 7, 0, 0, 0] ++ encodeSamples (List.replicate 255 7) := by
    simp only [encode, h256 7, encodeSamples, e7]
    rfl
  have hd1len : (encode (Packet.Audio (List.replicate 256 7))).length = 1025 := by
    simp only [encode, List.length_cons, encodeSamples_length, List.length_replicate]
  have hbuf1 : recvInto (List.replicate MAX_PACKET_SIZE 0)
      (encode (Packet.Audio (List.replicate 256 7))) =
      [1, 7, 0, 0, 0] ++
        (encodeSamples (List.replicate 255 7) ++ List.replicate 7 0) := by
    unfold recvInto
    rw [hd1len, show MAX_PACKET_SIZE = 1032 from rfl, List.drop_replicate,
      show (1032 - 1025 : Nat) = 7 from rfl, hd1, List.append_assoc]
  have hd2 : (encode (Packet.Audio (List.replicate 256 9))).take 5 =
      [1, 9, 0, 0, 0] := by
    simp only [encode, h256 9, encodeSamples, e9]
    rfl
  have hbuf2 : recvInto
      ([1, 7, 0, 0, 0] ++
        (encodeSamples (List.replicate 255 7) ++ List.replicate 7 0))
      [1, 9, 0, 0, 0] =
      1 :: (encodeSamples (9 :: List.replicate 255 7) ++ List.replicate 7 0) := by
    unfold recvInto
    rw [show ([1, 9, 0, 0, 0] : List Nat).length =
        ([1, 7, 0, 0, 0] : List Nat).length from rfl, List.drop_left]
    simp only [encodeSamples, e9, List.append_assoc]
    rfl
  rw [hbuf1, hd2, hbuf2]
  have hbound : ∀ w ∈ (9 :: List.replicate 255 7), w < 4294967296 := by
    intro w hw
    rcases List.mem_cons.mp hw with h | h
    · omega
    · have := List.eq_of_mem_replicate h
      omega
  have hdec : decodeSamples TX_BUFFER_SIZE
      (encodeSamples (9 :: List.replicate 255 7) ++ List.replicate 7 0) =
      some (9 :: List.replicate 255 7, List.replicate 7 0) := by
    have hlen : (9 :: List.replicate 255 7).length = TX_BUFFER_SIZE := by
      simp [List.length_replicate, TX_BUFFER_SIZE]
    rw [← hlen]
    exact decodeSamples_encodeSamples _ _ hbound
  simp only [decode, decodeVarintU32]
  rw [if_pos (by norm_num)]
  simp only [hdec]
  norm_num [List.length_cons, List.length_append, encodeSamples_length,
    List.length_replicate]

/-- `JitterBuffer<T>` from src/jitter.rs (the spec's "PacingBuffer"):
a bounded queue with front at the head of `buffer`. -/
structure JitterBuffer (T : Type) where
  buffer : List T
  capacity : Nat
deriving DecidableEq

/-- `JitterBuffer::new(capacity)`. -/
def JitterBuffer.new (T : Type) (capacity : Nat) : JitterBuffer T :=
  { buffer := [], capacity := capacity }

/-- `JitterBuffer::push_and_drain(value)` from src/jitter.rs: if the current
occupancy is at least the capacity, drain everything, then push `value` and
return the drained batch; otherwise push `value` and return `None`. -/
def JitterBuffer.push_and_drain (self : JitterBuffer T) (value : T) :
    Option (List T) × JitterBuffer T :=
  if self.buffer.length ≥ self.capacity then
    (some self.buffer, { buffer := [value], capacity := self.capacity })
  else
    (none, { buffer := self.buffer ++ [value], capacity := self.capacity })

/-- A sequence of `push_and_drain` calls, collecting each call's result. -/
def JitterBuffer.pushSeq (self : JitterBuffer T) :
    List T → List (Option (List T)) × JitterBuffer T
  | [] => ([], self)
  | v :: vs =>
    let r := self.push_and_drain v
    let rest := r.2.pushSeq vs
    (r.1 :: rest.1, rest.2)

/-- **C3, counterexample.** With capacity `C = 2`, the claim predicts that
the second push (the push after the first `C - 1 = 1` pushes) returns
`Some` with the queued items; the code returns `None`, because draining
only happens once the occupancy has reached `C`, i.e. on push `C + 1`. -/
theorem push_and_drain_claim_cx :
    ((((JitterBuffer.new Nat 2).push_and_drain 10).2).push_and_drain 20).1 =
      none := rfl

theorem pushSeq_under_capacity (b : JitterBuffer T) (vs : List T)
    (h : b.buffer.length + vs.length ≤ b.capacity) :
    b.pushSeq vs =
      (List.replicate vs.length none,
        { buffer := b.buffer ++ vs, capacity := b.capacity }) := by
  induction vs generalizing b with
  | nil => simp [JitterBuffer.pushSeq]
  | cons v vs ih =>
    have hlt : ¬ b.buffer.length ≥ b.capacity := by
      simp only [List.length_cons] at h
      omega
    have hstep : b.push_and_drain v =
        (none, { buffer := b.buffer ++ [v], capacity := b.capacity }) := by
      simp [JitterBuffer.push_and_drain, hlt]
    have hrec := ih { buffer := b.buffer ++ [v], capacity := b.capacity }
      (by simp only [List.length_append, List.length_cons, List.length_nil] at h ⊢; omega)
    simp [JitterBuffer.pushSeq, hstep, hrec, List.replicate_succ]

/-- **C3, amended.** Starting from an empty `JitterBuffer` of capacity `C`,
each of the first `C` calls to `push_and_drain` returns `None` (after which
the buffer holds those `C` items in FIFO order); the next push, number
`C + 1`, returns `Some` containing exactly the `C` previously queued items
in FIFO order, and afterward the buffer holds exactly the one newly pushed
item. -/
theorem push_and_drain_fills (T : Type) (C : Nat) (vs : List T) (v : T)
    (h : vs.length = C) :
    ((JitterBuffer.new T C).pushSeq vs).1 = List.replicate C none ∧
    ((JitterBuffer.new T C).pushSeq vs).2.buffer = vs ∧
    (((JitterBuffer.new T C).pushSeq vs).2.push_and_drain v).1 = some vs ∧
    (((JitterBuffer.new T C).pushSeq vs).2.push_and_drain v).2.buffer = [v] := by
  have hfill := pushSeq_under_capacity (JitterBuffer.new T C) vs
    (by simp [JitterBuffer.new, h])
  simp only [JitterBuffer.new, List.nil_append] at hfill
  have hfull : vs.length ≥ C := by omega
  refine ⟨?_, ?_, ?_, ?_⟩ <;>
    simp [JitterBuffer.new, hfill, h, JitterBuffer.push_and_drain, hfull]

/-- Witness for C3 (amended) at capacity 2 with pushes 10, 20, 30. -/
theorem push_and_drain_fills_witness :
    ((JitterBuffer.new Nat 2).pushSeq [10, 20]).1 = List.replicate 2 none ∧
    ((JitterBuffer.new Nat 2).pushSeq [10, 20]).2.buffer = [10, 20] ∧
    (((JitterBuffer.new Nat 2).pushSeq [10, 20]).2.push_and_drain 30).1 =
      some [10, 20] ∧
    (((JitterBuffer.new Nat 2).pushSeq [10, 20]).2.push_and_drain 30).2.buffer =
      [30] :=
  push_and_drain_fills Nat 2 [10, 20] 30 (by decide)

/-- Rust `f32::clamp(lo, hi)`: below `lo` gives `lo`, above `hi` gives
`hi`, otherwise the value itself. The engine's `f32` arithmetic is modelled
over exact rationals. -/
def clamp (x lo hi : ℚ) : ℚ := if x < lo then lo else if x > hi then hi else x

/-- `biquad::DirectForm1<f32>` state: the five coefficients produced by
`Coefficients::from_params` (computed by the external `biquad` crate from
the 44.1 kHz sample rate, the cutoff and the Butterworth Q; kept here as
plain fields) and the two input and two output delay taps. -/
structure Biquad where
  b0 : ℚ
  b1 : ℚ
  b2 : ℚ
  a1 : ℚ
  a2 : ℚ
  x1 : ℚ
  x2 : ℚ
  y1 : ℚ
  y2 : ℚ

/-- `DirectForm1::run` from the biquad crate: one second-order recursive
filter step, shifting the delay taps. -/
def Biquad.run (f : Biquad) (input : ℚ) : ℚ × Biquad :=
  let out := f.b0 * input + f.b1 * f.x1 + f.b2 * f.x2
    - f.a1 * f.y1 - f.a2 * f.y2
  (out, { f with x2 := f.x1, x1 := input, y2 := f.y1, y1 := out })

/-- `FxUnit` from src/fx.rs. The `noise` crate's `Fbm<Simplex>` generator
(seed 0) is deterministic in the sample point `[noise_idx, noise_idx]`, so
it is carried as an opaque function of `noise_idx`. -/
structure FxUnit where
  disabled : Bool
  noiser : ℚ → ℚ
  noiseIdx : ℚ
  lowpass : Biquad
  highpass : Biquad
  signalGain : ℚ
  distortion : ℚ

/-- The noise-filling loops of `FxUnit::run` and `FxUnit::squelch`: take
`n` noise samples at the current index, advancing the index by `step` after
each sample; returns the samples and the final index. -/
def genNoise (noiser : ℚ → ℚ) (step : ℚ) : Nat → ℚ → List ℚ × ℚ
  | 0, idx => ([], idx)
  | n + 1, idx =>
    let r := genNoise noiser step n (idx + step)
    (noiser idx :: r.1, r.2)

/-- The filter loop of `FxUnit::run`: each sample through the low-pass then
the high-pass filter, threading both filter states. -/
def runFilters (lp hp : Biquad) : List ℚ → List ℚ × Biquad × Biquad
  | [] => ([], lp, hp)
  | s :: rest =>
    let r1 := lp.run s
    let r2 := hp.run r1.1
    let rr := runFilters r1.2 r2.2 rest
    (r2.1 :: rr.1, rr.2)

/-- `FxUnit::run` from src/fx.rs. Enabled: generate `TX_BUFFER_SIZE` noise
samples advancing the noise index by 0.005 each; per sample clamp to the
distortion threshold, rescale by `0.4 / distortion`, apply the signal gain,
add 30 percent of the noise sample, clamp to `[-1, 1]`; then run the block
through the low-pass and high-pass filters. Disabled: gain and clamp only. -/
def FxUnit.run (fx : FxUnit) (samples : List ℚ) : List ℚ × FxUnit :=
  if fx.disabled = false then
    let noise := genNoise fx.noiser (1 / 200) TX_BUFFER_SIZE fx.noiseIdx
    let shaped := (samples.zip noise.1).map (fun p =>
      clamp (clamp p.1 (-fx.distortion) fx.distortion * (2 / 5 / fx.distortion)
        * fx.signalGain + p.2 * (3 / 10)) (-1) 1)
    let filtered := runFilters fx.lowpass fx.highpass shaped
    (filtered.1,
      { fx with
          noiseIdx := noise.2
          lowpass := filtered.2.1
          highpass := filtered.2.2 })
  else
    (samples.map (fun s => clamp (s * fx.signalGain) (-1) 1), fx)

/-- The `for _ in 0..length` loop body of `FxUnit::squelch`: fill a block
with noise samples scaled by 0.1, advancing the noise index by 0.03 per
sample, then feed the block through `run` and collect the result. -/
def FxUnit.squelchLoop (fx : FxUnit) : Nat → List (List ℚ) × FxUnit
  | 0 => ([], fx)
  | n + 1 =>
    let noise := genNoise fx.noiser (3 / 100) TX_BUFFER_SIZE fx.noiseIdx
    let buf := noise.1.map (fun s => s * (1 / 10))
    let fx1 := { fx with noiseIdx := noise.2 }
    let r := fx1.run buf
    let rest := r.2.squelchLoop n
    (r.1 :: rest.1, rest.2)

/-- `FxUnit::squelch` from src/fx.rs: `length = 8` synthetic static blocks
when effects are enabled, and no blocks at all when disabled. -/
def FxUnit.squelch (fx : FxUnit) : List (List ℚ) × FxUnit :=
  if fx.disabled = false then fx.squelchLoop 8 else ([], fx)

theorem squelchLoop_length (n : Nat) (fx : FxUnit) :
    (fx.squelchLoop n).1.length = n := by
  induction n generalizing fx with
  | zero => rfl
  | succ m ih => simp [FxUnit.squelchLoop, ih]

/-- **C4.** For every prior engine state, `squelch()` returns an empty
sequence of blocks when effects are disabled, and exactly the fixed
configured count of 8 blocks when effects are enabled. -/
theorem squelch_count (fx : FxUnit) :
    (fx.disabled = true → (fx.squelch).1 = []) ∧
    (fx.disabled = false → (fx.squelch).1.length = 8) := by
  constructor
  · intro h
    simp [FxUnit.squelch, h]
  · intro h
    simp [FxUnit.squelch, h, squelchLoop_length]

/-- A concrete biquad state for witnesses. -/
def zeroBiquad : Biquad :=
  { b0 := 0, b1 := 0, b2 := 0, a1 := 0, a2 := 0
    x1 := 0, x2 := 0, y1 := 0, y2 := 0 }

/-- A concrete engine state with effects disabled (`--no-fx`). -/
def fxUnitOff : FxUnit :=
  { disabled := true, noiser := fun _ => 0, noiseIdx := 0
    lowpass := zeroBiquad, highpass := zeroBiquad
    signalGain := 1, distortion := 1 / 20 }

/-- A concrete engine state with effects enabled. -/
def fxUnitOn : FxUnit :=
  { fxUnitOff with disabled := false }

/-- Witness for C4 at a disabled and an enabled engine state. -/
theorem squelch_count_witness :
    (fxUnitOff.squelch).1 = [] ∧ (fxUnitOn.squelch).1.length = 8 :=
  ⟨(squelch_count fxUnitOff).1 rfl, (squelch_count fxUnitOn).2 rfl⟩

/-- The per-sample accumulation of the server's mixing loop in
src/server.rs (lines 57-60): `*b += s; *b = b.clamp(-1.0, 1.0);` over the
zipped output buffer and one popped block. -/
def mixBlock (buf samples : List ℚ) : List ℚ :=
  List.zipWith (fun b s => clamp (b + s) (-1) 1) buf samples

/-- The server registry: remote addresses (abstracted as naturals) paired
with their ordered queues of pending blocks, front first. A `HashMap`
iterates in unspecified order; the model fixes the association-list order. -/
def mixedOf (registry : List (Nat × List (List ℚ))) : List ℚ :=
  registry.foldl
    (fun buf entry =>
      match entry.2 with
      | [] => buf
      | blk :: _ => mixBlock buf blk)
    (List.replicate TX_BUFFER_SIZE 0)

/-- The `pop_front` half of the mixing loop: every client with a non-empty
queue loses exactly its front block (the one that was mixed). -/
def popOne (registry : List (Nat × List (List ℚ))) :
    List (Nat × List (List ℚ)) :=
  registry.map (fun entry => (entry.1, entry.2.tail))

/-- The broadcast of src/server.rs (lines 64-74): if the mixed block has
any sample different from 0, send it to every registered client address
(contributors included); otherwise send nothing this tick. -/
def tickSends (registry : List (Nat × List (List ℚ))) : List (Nat × List ℚ) :=
  if (mixedOf registry).any (fun a => a != 0) then
    registry.map (fun entry => (entry.1, mixedOf registry))
  else []

theorem mixBlock_replicate (n : Nat) (a b : ℚ) :
    mixBlock (List.replicate n a) (List.replicate n b) =
      List.replicate n (clamp (a + b) (-1) 1) := by
  induction n with
  | zero => rfl
  | succ m ih =>
    simp only [List.replicate_succ, mixBlock, List.zipWith_cons_cons]
    rw [show List.zipWith (fun b s => clamp (b + s) (-1) 1)
      (List.replicate m a) (List.replicate m b) =
        mixBlock (List.replicate m a) (List.replicate m b) from rfl, ih]

theorem any_replicate_succ (n : Nat) (a : ℚ) (p : ℚ → Bool) :
    (List.replicate (n + 1) a).any p = p a := by
  induction n with
  | zero => simp [List.replicate_succ]
  | succ m ih => rw [List.replicate_succ, List.any_cons, ih, Bool.or_self]

/-- **C5.** On a tick where client A (address 0) and client B (address 1)
each queue one block of 0.6-valued samples, the mixed block is the
per-sample clamped sum `[1.0] * N`, it is broadcast to both A and B
(contributors are not excluded), and exactly one block is popped from each
queue. -/
theorem mix_two_clients :
    mixedOf [(0, [List.replicate TX_BUFFER_SIZE (3 / 5 : ℚ)]),
        (1, [List.replicate TX_BUFFER_SIZE (3 / 5 : ℚ)])] =
      List.replicate TX_BUFFER_SIZE (1 : ℚ) ∧
    tickSends [(0, [List.replicate TX_BUFFER_SIZE (3 / 5 : ℚ)]),
        (1, [List.replicate TX_BUFFER_SIZE (3 / 5 : ℚ)])] =
      [(0, List.replicate TX_BUFFER_SIZE (1 : ℚ)),
        (1, List.replicate TX_BUFFER_SIZE (1 : ℚ))] ∧
    popOne [(0, [List.replicate TX_BUFFER_SIZE (3 / 5 : ℚ)]),
        (1, [List.replicate TX_BUFFER_SIZE (3 / 5 : ℚ)])] =
      [(0, []), (1, [])] := by
  have hc1 : clamp ((0 : ℚ) + 3 / 5) (-1) 1 = 3 / 5 := by
    norm_num [clamp]
  have hc2 : clamp ((3 : ℚ) / 5 + 3 / 5) (-1) 1 = 1 := by
    norm_num [clamp]
  have hmix : mixedOf [(0, [List.replicate TX_BUFFER_SIZE (3 / 5 : ℚ)]),
      (1, [List.replicate TX_BUFFER_SIZE (3 / 5 : ℚ)])] =
      List.replicate TX_BUFFER_SIZE (1 : ℚ) := by
    simp only [mixedOf, List.foldl_cons, List.foldl_nil, mixBlock_replicate,
      hc1, hc2]
  refine ⟨hmix, ?_, by simp [popOne]⟩
  have hany : (List.replicate TX_BUFFER_SIZE (1 : ℚ)).any (fun a => a != 0) =
      true := by
    rw [show TX_BUFFER_SIZE = 255 + 1 from rfl, any_replicate_succ]
    norm_num
  simp only [tickSends, hmix, hany, if_pos, List.map_cons, List.map_nil]

/-- **C6.** A tick broadcasts (to every registered address) exactly when
the mixed block has at least one non-zero sample; in particular, with one
registered client whose only pending block is all zeros, the mixed block is
all zeros and nothing is sent that tick. -/
theorem broadcast_iff (reg : List (Nat × List (List ℚ))) :
    (tickSends reg ≠ [] ↔ reg ≠ [] ∧ ∃ a ∈ mixedOf reg, a ≠ 0) ∧
    tickSends [(0, [List.replicate TX_BUFFER_SIZE (0 : ℚ)])] = [] := by
  constructor
  · rcases h : (mixedOf reg).any (fun a => a != 0) with hfalse | htrue
    · have hnone : ¬ ∃ a ∈ mixedOf reg, a ≠ 0 := by
        intro ⟨a, ha, hne⟩
        have : (mixedOf reg).any (fun a => a != 0) = true :=
          List.any_eq_true.mpr ⟨a, ha, bne_iff_ne.mpr hne⟩
        rw [h] at this
        exact Bool.false_ne_true this
      simp [tickSends, h, hnone]
    · have hsome : ∃ a ∈ mixedOf reg, a ≠ 0 := by
        obtain ⟨a, ha, hne⟩ := List.any_eq_true.mp h
        exact ⟨a, ha, bne_iff_ne.mp hne⟩
      simp [tickSends, h, hsome, List.map_eq_nil_iff]
  · have hmix : mixedOf [(0, [List.replicate TX_BUFFER_SIZE (0 : ℚ)])] =
        List.replicate TX_BUFFER_SIZE (0 : ℚ) := by
      simp only [mixedOf, List.foldl_cons, List.foldl_nil, mixBlock_replicate]
      norm_num [clamp]
    have hany : (List.replicate TX_BUFFER_SIZE (0 : ℚ)).any (fun a => a != 0) =
        false := by
      rw [show TX_BUFFER_SIZE = 255 + 1 from rfl, any_replicate_succ]
      norm_num
    simp [tickSends, hmix, hany]

/-- `WAIT_DURATION` from src/lib.rs: the nominal inter-block interval,
`1.0 / (44100.0 / TX_BUFFER_SIZE)` seconds, modelled exactly in seconds. -/
def WAIT_DURATION : ℚ := 256 / 44100

/-- The receive-side state of the client session loop in src/bin/client.rs
(lines 147-224): the `do_squelch` "signal present" flag, the arrival time
of the last decoded audio packet, and the owned effects engine. -/
structure ClientState where
  doSquelch : Bool
  lastPacket : ℚ
  fx : FxUnit

/-- What one non-blocking receive-and-decode attempt of the idle branch
produced: nothing (`recv_from` returned `WouldBlock`), a decode error, a
decoded `Ping`, or a decoded `Audio` block. -/
inductive RxPacket where
  | nothing : RxPacket
  | decodeErr : RxPacket
  | ping : RxPacket
  | audio (samples : List ℚ) : RxPacket

/-- What one idle-branch iteration did: the successor state, the chunks
sent to the speaker channel, and how many `squelch()` release bursts were
triggered by the silence timeout. -/
structure IdleOutput where
  state : ClientState
  played : List (List ℚ)
  bursts : Nat

/-- One iteration of the idle (`!ptt`) branch of the session loop in
src/bin/client.rs (lines 196-223), at wall-clock time `now`. A decoded
`Audio` records the arrival time, sets "signal present", runs the effects
engine and plays the block. A decode error is logged and discarded. With
nothing received, if "signal present" is set and the elapsed time since the
last packet is at least `7 * WAIT_DURATION`, the flag is cleared and one
`squelch()` burst is played. A decoded `Ping` hits the `todo!()` arm, which
panics the thread: `none` models that panic. -/
def idleStep (st : ClientState) (now : ℚ) (rx : RxPacket) :
    Option IdleOutput :=
  match rx with
  | .nothing =>
    if st.doSquelch = true ∧ now - st.lastPacket ≥ 7 * WAIT_DURATION then
      let r := st.fx.squelch
      some { state := { doSquelch := false, lastPacket := st.lastPacket, fx := r.2 }
             played := r.1, bursts := 1 }
    else
      some { state := st, played := [], bursts := 0 }
  | .decodeErr => some { state := st, played := [], bursts := 0 }
  | .ping => none
  | .audio samples =>
    let r := st.fx.run samples
    some { state := { doSquelch := true, lastPacket := now, fx := r.2 }
           played := [r.1], bursts := 0 }

/-- **C7.** Silence timeout, in three steps of the idle loop: (1) with
"signal present" set and no packet for at least seven nominal inter-block
intervals, exactly one squelch burst is injected and the flag is cleared;
(2) while the flag stays cleared, a further packetless iteration injects no
burst and leaves the flag cleared, however much time has passed; (3) from
the cleared state, an `Audio` arrival re-asserts the flag without
triggering a burst. -/
theorem silence_timeout (st st2 : ClientState) (now now2 : ℚ)
    (samples : List ℚ) (h1 : st.doSquelch = true)
    (h2 : now - st.lastPacket ≥ 7 * WAIT_DURATION) :
    (∃ out, idleStep st now RxPacket.nothing = some out ∧
      out.bursts = 1 ∧ out.state.doSquelch = false) ∧
    (st2.doSquelch = false →
      ∃ out, idleStep st2 now2 RxPacket.nothing = some out ∧
        out.bursts = 0 ∧ out.state.doSquelch = false) ∧
    (st2.doSquelch = false →
      ∃ out, idleStep st2 now2 (RxPacket.audio samples) = some out ∧
        out.bursts = 0 ∧ out.state.doSquelch = true) := by
  refine ⟨?_, ?_, ?_⟩
  · refine ⟨⟨⟨false, st.lastPacket, st.fx.squelch.2⟩, st.fx.squelch.1, 1⟩,
      ?_, rfl, rfl⟩
    simp only [idleStep]
    rw [if_pos ⟨h1, h2⟩]
  · intro hoff
    have hneg : ¬ (st2.doSquelch = true ∧ now2 - st2.lastPacket ≥ 7 * WAIT_DURATION) := by
      intro ⟨ha, _⟩
      rw [hoff] at ha
      exact Bool.false_ne_true ha
    refine ⟨⟨st2, [], 0⟩, ?_, rfl, hoff⟩
    simp only [idleStep]
    rw [if_neg hneg]
  · intro hoff
    exact ⟨⟨⟨true, now2, (st2.fx.run samples).2⟩, [(st2.fx.run samples).1], 0⟩,
      rfl, rfl, rfl⟩

/-- Witness for C7: a timed-out active state and a cleared state. -/
theorem silence_timeout_witness :
    (∃ out, idleStep { doSquelch := true, lastPacket := 0, fx := fxUnitOn } 1
        RxPacket.nothing = some out ∧
      out.bursts = 1 ∧ out.state.doSquelch = false) ∧
    (∃ out, idleStep { doSquelch := false, lastPacket := 0, fx := fxUnitOn } 2
        RxPacket.nothing = some out ∧
      out.bursts = 0 ∧ out.state.doSquelch = false) ∧
    (∃ out, idleStep { doSquelch := false, lastPacket := 0, fx := fxUnitOn } 2
        (RxPacket.audio (List.replicate 256 0)) = some out ∧
      out.bursts = 0 ∧ out.state.doSquelch = true) := by
  have h := silence_timeout
    { doSquelch := true, lastPacket := 0, fx := fxUnitOn }
    { doSquelch := false, lastPacket := 0, fx := fxUnitOn }
    1 2 (List.replicate 256 0) rfl (by norm_num [WAIT_DURATION])
  exact ⟨h.1, h.2.1 rfl, h.2.2 rfl⟩

/-- **C8, counterexample.** The claim says a decoded `Ping` in the idle
loop is merely an unreachable/logged condition and the session loop does
not terminate or panic on it; but the `Packet::Ping => todo!()` arm panics
the thread, modelled by `idleStep` returning `none` at this concrete
state. -/
theorem ping_todo_cx :
    idleStep { doSquelch := false, lastPacket := 0, fx := fxUnitOn } 0
      RxPacket.ping = none := rfl

/-- **C8, amended.** When the idle session loop receives and decodes a
`Ping` packet, the `todo!()` arm panics, terminating the session thread in
every state — the condition is treated as unreachable by panicking, not by
logging and continuing. -/
theorem ping_todo_panics (st : ClientState) (now : ℚ) :
    idleStep st now RxPacket.ping = none := rfl

end Squelch
